import Mathlib

/-!
Shallow embedding of `cmd/status.go` (pathvector `status` subcommand):
protocol-state data model, the stable sort comparator, prefix priority,
tag filtering, table-row construction and the run control flow, together
with proofs of the specified properties.
-/

namespace Status

/-! ### Character/string helpers (embeddings of Go `strings` functions) -/

/-- Embedding of Go `strings.HasPrefix` at the character-list level:
`hasPfxL pat s` is true when `pat` is an initial segment of `s`. -/
def hasPfxL (pat s : List Char) : Bool :=
  match pat, s with
  | [], _ => true
  | _ :: _, [] => false
  | p :: ps, c :: cs => p == c && hasPfxL ps cs

/-- Embedding of Go `strings.Contains` at the character-list level:
true when `pat` occurs as a contiguous segment of `s`. -/
def hasSubL (s pat : List Char) : Bool :=
  match s with
  | [] => hasPfxL pat []
  | c :: cs => hasPfxL pat (c :: cs) || hasSubL cs pat

/-- Go `strings.HasPrefix s pat`. -/
def hasPfx (s pat : String) : Bool := hasPfxL pat.data s.data

/-- Go `strings.Contains s pat` (case-sensitive, as in Go). -/
def strContains (s pat : String) : Bool := hasSubL s.data pat.data

/-- Go `strings.ToLower` (ASCII case folding, which is all the
protocol-name prefixes need). -/
def lowerStr (s : String) : String := String.mk (s.data.map Char.toLower)

theorem strData_inj : ∀ {s t : String}, s.data = t.data → s = t := by
  intro s t h
  cases s
  cases t
  exact congrArg String.mk h

/-- Decimal digit list of a natural number (most significant first);
the digits part of Go `fmt.Sprintf("%d", _)`. -/
def natDec (n : Nat) : List Char :=
  if h : n < 10 then [Char.ofNat (48 + n)]
  else natDec (n / 10) ++ [Char.ofNat (48 + n % 10)]
  decreasing_by exact Nat.div_lt_self (by omega) (by omega)

/-- Embedding of Go `fmt.Sprintf("%d", i)` for a (signed) integer. -/
def intToDec (i : Int) : String :=
  if i < 0 then String.mk ('-' :: natDec (-i).toNat) else String.mk (natDec i.toNat)

/-! ### Data model (`bird.ProtocolState` and the fields `status.go` uses) -/

/-- The BGP sub-record of a protocol state (`protocolState.BGP`). -/
structure BGPInfo where
  NeighborAddress : String
  NeighborAS : Int
deriving DecidableEq

/-- Route counters (`protocolState.Routes`); `-1` is the "unknown" sentinel. -/
structure RouteCounts where
  Imported : Int
  Exported : Int
deriving DecidableEq

/-- One parsed protocol record. `BGP = none` models the Go nil pointer:
its presence is the sole BGP/non-BGP discriminator. -/
structure ProtocolState where
  Name : String
  State : String
  Since : String
  Info : String
  Routes : RouteCounts
  BGP : Option BGPInfo
deriving DecidableEq

/-- An entry of the protocol-names map (`templating.Protocol`, the two
fields `status.go` reads). -/
structure NameEntry where
  Name : String
  Tags : List String
deriving DecidableEq

/-- The name-resolution map, Go `map[string]*templating.Protocol`,
modelled as an association list (`protocols[name]` = first hit). -/
abbrev NameMap := List (String × NameEntry)

/-- Go map lookup `protocols[name]`. -/
def lookupName (m : NameMap) (k : String) : Option NameEntry :=
  (m.find? (fun e => e.1 == k)).map (·.2)

/-! ### Prefix priority (`prefixOrder`, `getPrefixPriority`) -/

/-- The prefix order for sorting, from `status.go`. -/
def prefixOrder : List String :=
  ["internal", "transit", "collector", "rs", "peer", "client", "downstream"]

/-- The indexed loop body of `getPrefixPriority`: index of the first
element of the list that `lowerName` starts with, or the list length. -/
def prioAux (lowerName : String) : List String → Nat
  | [] => 0
  | p :: rest => if hasPfx lowerName p then 0 else prioAux lowerName rest + 1

/-- Function `getPrefixPriority` from `status.go`: priority of a protocol name
based on its prefix (case insensitive). -/
def getPrefixPriority (name : String) : Nat :=
  prioAux (lowerStr name) prefixOrder

/-! ### The sort comparator and the stable sort -/

/-- The `sort.SliceStable` comparator from `statusCmd.Run`, verbatim:
non-BGP records first, two non-BGP records never strictly related, BGP
records by prefix priority then case-insensitive name. -/
def statusLess (a b : ProtocolState) : Bool :=
  let iIsBGP := a.BGP.isSome
  let jIsBGP := b.BGP.isSome
  if !iIsBGP && jIsBGP then true
  else if iIsBGP && !jIsBGP then false
  else if !iIsBGP && !jIsBGP then false
  else
    let priorityI := getPrefixPriority a.Name
    let priorityJ := getPrefixPriority b.Name
    if priorityI ≠ priorityJ then decide (priorityI < priorityJ)
    else decide ((lowerStr a.Name).data < (lowerStr b.Name).data)

/-- The non-strict order induced by the comparator: `a` need not come
after `b`.  A stable sort with comparator `statusLess` produces a
sequence sorted by this relation. -/
def stateLE (a b : ProtocolState) : Prop := statusLess b a = false

instance : DecidableRel stateLE := fun a b => by
  unfold stateLE; infer_instance

/-- Sort key realising `statusLess` as a lexicographic comparison:
BGP-ness, then (for BGP records) prefix priority and lowercased name. -/
def sKey (p : ProtocolState) : Bool ×ₗ (ℕ ×ₗ List Char) :=
  toLex (p.BGP.isSome,
    toLex (if p.BGP.isSome then getPrefixPriority p.Name else 0,
           if p.BGP.isSome then (lowerStr p.Name).data else []))

theorem statusLess_iff_sKey (a b : ProtocolState) :
    statusLess a b = true ↔ sKey a < sKey b := by
  cases ha : a.BGP.isSome <;> cases hb : b.BGP.isSome <;>
    simp only [statusLess, sKey, ha, hb] <;>
    simp [Prod.Lex.lt_iff]
  by_cases hp : getPrefixPriority a.Name = getPrefixPriority b.Name <;> simp [hp]

theorem stateLE_iff_sKey (a b : ProtocolState) : stateLE a b ↔ sKey a ≤ sKey b := by
  rw [stateLE, ← Bool.not_eq_true, statusLess_iff_sKey, not_lt]

instance : IsTotal ProtocolState stateLE :=
  ⟨fun a b => by
    rw [stateLE_iff_sKey, stateLE_iff_sKey]; exact le_total _ _⟩

instance : IsTrans ProtocolState stateLE :=
  ⟨fun a b c h1 h2 => (stateLE_iff_sKey a c).2
    (le_trans ((stateLE_iff_sKey a b).1 h1) ((stateLE_iff_sKey b c).1 h2))⟩

/-- The `sort.SliceStable` call of `statusCmd.Run`, modelled as a stable
insertion sort with the comparator `statusLess`: each element is placed
before the first already-placed element it need not follow. -/
def sortProtocols (l : List ProtocolState) : List ProtocolState :=
  List.insertionSort stateLE l

/-! ### Presentation helpers (`parseTableInt`, `colorStatus`, `containsAny`) -/

/-- Function `parseTableInt` from `status.go`. -/
def parseTableInt (i : Int) : String :=
  if i = -1 then "" else intToDec i

/-- Embedding of `color.GreenString` (success indicator): ANSI-green wrapping. -/
def greenString (s : String) : String := "\x1b[32m" ++ s ++ "\x1b[0m"

/-- Embedding of `color.RedString` (failure indicator): ANSI-red wrapping. -/
def redString (s : String) : String := "\x1b[31m" ++ s ++ "\x1b[0m"

/-- Embedding of `color.YellowString` (in-progress indicator): ANSI-yellow wrapping. -/
def yellowString (s : String) : String := "\x1b[33m" ++ s ++ "\x1b[0m"

/-- Function `colorStatus` from `status.go`. -/
def colorStatus (s : String) : String :=
  if s == "up" || s == "Established" then greenString s
  else if strContains s "Error" || s == "down" then redString s
  else if strContains s "Connect" || s == "start" then yellowString s
  else s

/-- Function `containsAny` from `status.go`: nested loops over `a` then `b`,
returning true on the first common element. -/
def containsAny (a b : List String) : Bool :=
  a.any (fun i => b.any (fun j => i == j))

/-- The display name of a record: the looked-up `p.Name`, falling back
to the raw protocol name (`statusCmd.Run`, protocol JSON lookup). -/
def dispNameOf (protocols : NameMap) (p : ProtocolState) : String :=
  match lookupName protocols p.Name with
  | some e => e.Name
  | none => p.Name

/-- The resolved tags of a record: looked up, falling back to the empty
list (`statusCmd.Run`, protocol JSON lookup). -/
def tagsOf (protocols : NameMap) (p : ProtocolState) : List String :=
  match lookupName protocols p.Name with
  | some e => e.Tags
  | none => []

/-- The command-line flags read by `statusCmd.Run`. -/
structure Flags where
  realProtocolNames : Bool
  onlyBGP : Bool
  showTags : Bool
  tagFilter : List String
deriving DecidableEq

/-- The row built for one record in `statusCmd.Run`'s table loop. -/
def rowOf (flags : Flags) (protocols : NameMap) (p : ProtocolState) : List String :=
  let neighborAS := match p.BGP with
    | some b => parseTableInt b.NeighborAS
    | none => "-"
  let neighborAddr := match p.BGP with
    | some b => b.NeighborAddress
    | none => "-"
  let row := [dispNameOf protocols p,
              neighborAS,
              neighborAddr,
              colorStatus p.State,
              parseTableInt p.Routes.Imported,
              parseTableInt p.Routes.Exported,
              p.Since,
              colorStatus p.Info]
  if flags.showTags then row ++ [String.intercalate ", " (tagsOf protocols p)] else row

/-- The table loop of `statusCmd.Run`: for each record, the BGP-only
gate, then the tag-filter gate, then the row. -/
def buildTable (flags : Flags) (protocols : NameMap) :
    List ProtocolState → List (List String)
  | [] => []
  | p :: rest =>
    if !flags.onlyBGP || p.BGP.isSome then
      if flags.tagFilter.isEmpty || containsAny flags.tagFilter (tagsOf protocols p) then
        rowOf flags protocols p :: buildTable flags protocols rest
      else buildTable flags protocols rest
    else buildTable flags protocols rest

/-- The combined retention predicate applied by the table loop. -/
def keepRecord (flags : Flags) (protocols : NameMap) (p : ProtocolState) : Bool :=
  (!flags.onlyBGP || p.BGP.isSome) &&
    (flags.tagFilter.isEmpty || containsAny flags.tagFilter (tagsOf protocols p))

theorem buildTable_eq_filter_map (flags : Flags) (protocols : NameMap)
    (states : List ProtocolState) :
    buildTable flags protocols states
      = (states.filter (keepRecord flags protocols)).map (rowOf flags protocols) := by
  induction states with
  | nil => rfl
  | cons p rest ih =>
    by_cases h1 : (!flags.onlyBGP || p.BGP.isSome) = true <;>
      by_cases h2 : (flags.tagFilter.isEmpty
        || containsAny flags.tagFilter (tagsOf protocols p)) = true <;>
      simp [buildTable, keepRecord, h1, h2, ih]

/-! ### The run control flow of `statusCmd.Run` -/

/-- The external collaborators of one run, as oracles: the result of
`loadConfig`, of `bird.RunCommand`, of reading and unmarshalling
`/etc/bird/protocols.json`, and of `bird.ParseProtocols`. -/
structure RunEnv where
  configErr : Option String
  birdOut : Except String String
  nameMapData : Except String NameMap
  parse : String → Except String (List ProtocolState)

/-- How one run ends: `log.Fatal` with a message, or a rendered table. -/
inductive RunOutcome where
  | fatal (msg : String)
  | table (rows : List (List String))
deriving DecidableEq

/-- Observable trace of one run: warnings logged, whether the
name-mapping file was consulted, and the outcome. -/
structure RunTrace where
  warnings : List String
  readNameFile : Bool
  outcome : RunOutcome
deriving DecidableEq

/-- The `log.Warnf` message issued when `loadConfig` fails. -/
def configWarning (e : String) : String :=
  "Error loading config, falling back to no-config output parsing: " ++ e

/-- The body of `statusCmd.Run`: warn (not abort) on config failure, die
on a command failure, read the name map unless `realProtocolNames`, die
on a read/unmarshal or parse failure, then sort and build the table. -/
def runStatus (flags : Flags) (env : RunEnv) : RunTrace :=
  let warnings := match env.configErr with
    | some e => [configWarning e]
    | none => []
  match env.birdOut with
  | Except.error e => { warnings := warnings, readNameFile := false,
                        outcome := RunOutcome.fatal e }
  | Except.ok commandOutput =>
    if flags.realProtocolNames then
      match env.parse commandOutput with
      | Except.error e => { warnings := warnings, readNameFile := false,
                            outcome := RunOutcome.fatal e }
      | Except.ok protocolStates =>
        { warnings := warnings, readNameFile := false,
          outcome := RunOutcome.table
            (buildTable flags [] (sortProtocols protocolStates)) }
    else
      match env.nameMapData with
      | Except.error e => { warnings := warnings, readNameFile := true,
                            outcome := RunOutcome.fatal e }
      | Except.ok protocols =>
        match env.parse commandOutput with
        | Except.error e => { warnings := warnings, readNameFile := true,
                              outcome := RunOutcome.fatal e }
        | Except.ok protocolStates =>
          { warnings := warnings, readNameFile := true,
            outcome := RunOutcome.table
              (buildTable flags protocols (sortProtocols protocolStates)) }

/-! ### Structural lemmas about the stable sort -/

theorem statusLess_right_nonBGP (y x : ProtocolState) (hx : x.BGP.isSome = false) :
    statusLess y x = false := by
  cases hy : y.BGP.isSome <;> simp [statusLess, hx, hy]

theorem stateLE_of_nonBGP (x z : ProtocolState) (hx : x.BGP.isSome = false) :
    stateLE x z :=
  statusLess_right_nonBGP z x hx

theorem orderedInsert_front (x : ProtocolState) (l : List ProtocolState)
    (h : ∀ z ∈ l, stateLE x z) :
    List.orderedInsert stateLE x l = x :: l := by
  cases l with
  | nil => rfl
  | cons b t => exact List.orderedInsert_of_le stateLE t (h b (List.mem_cons_self b t))

theorem sortProtocols_nonBGP_id (l : List ProtocolState)
    (h : ∀ p ∈ l, p.BGP.isSome = false) : sortProtocols l = l := by
  induction l with
  | nil => rfl
  | cons x xs ih =>
    have hx : x.BGP.isSome = false := h x (List.mem_cons_self x xs)
    have hxs : ∀ p ∈ xs, p.BGP.isSome = false := fun p hp => h p (List.mem_cons_of_mem x hp)
    show List.orderedInsert stateLE x (List.insertionSort stateLE xs) = x :: xs
    rw [orderedInsert_front x _ (fun z _ => stateLE_of_nonBGP x z hx)]
    rw [show List.insertionSort stateLE xs = sortProtocols xs from rfl, ih hxs]

theorem filter_orderedInsert_neg (q : ProtocolState → Bool) (x : ProtocolState)
    (hq : q x = false) (l : List ProtocolState) :
    (List.orderedInsert stateLE x l).filter q = l.filter q := by
  induction l with
  | nil => simp [hq]
  | cons b t ih =>
    by_cases hxb : stateLE x b
    · rw [List.orderedInsert_of_le stateLE t hxb, List.filter_cons_of_neg (by simp [hq])]
    · simp only [List.orderedInsert, if_neg hxb]
      by_cases hb : q b = true
      · rw [List.filter_cons_of_pos hb, List.filter_cons_of_pos hb, ih]
      · rw [List.filter_cons_of_neg (by simpa using hb),
          List.filter_cons_of_neg (by simpa using hb), ih]

theorem filter_orderedInsert_pos (q : ProtocolState → Bool) (x : ProtocolState)
    (hq : q x = true) :
    ∀ l : List ProtocolState, l.Sorted stateLE →
      (List.orderedInsert stateLE x l).filter q = List.orderedInsert stateLE x (l.filter q) := by
  intro l
  induction l with
  | nil => intro _; simp [hq]
  | cons b t ih =>
    intro hs
    have hst : t.Sorted stateLE := hs.of_cons
    by_cases hxb : stateLE x b
    · rw [List.orderedInsert_of_le stateLE t hxb, List.filter_cons_of_pos hq]
      by_cases hb : q b = true
      · rw [List.filter_cons_of_pos hb, List.orderedInsert_of_le stateLE _ hxb]
      · rw [List.filter_cons_of_neg (by simpa using hb)]
        rw [orderedInsert_front x _ ?_]
        intro z hz
        have hzt : z ∈ t := (List.mem_filter.1 hz).1
        exact IsTrans.trans x b z hxb (List.rel_of_sorted_cons hs z hzt)
    · simp only [List.orderedInsert, if_neg hxb]
      by_cases hb : q b = true
      · rw [List.filter_cons_of_pos hb, List.filter_cons_of_pos hb,
          List.orderedInsert, if_neg hxb, ih hst]
      · rw [List.filter_cons_of_neg (by simpa using hb),
          List.filter_cons_of_neg (by simpa using hb), ih hst]

theorem filter_sortProtocols_comm (q : ProtocolState → Bool) (l : List ProtocolState) :
    (sortProtocols l).filter q = sortProtocols (l.filter q) := by
  induction l with
  | nil => rfl
  | cons x xs ih =>
    show (List.orderedInsert stateLE x (List.insertionSort stateLE xs)).filter q = _
    by_cases hx : q x = true
    · rw [filter_orderedInsert_pos q x hx _ (List.sorted_insertionSort stateLE xs)]
      rw [show List.insertionSort stateLE xs = sortProtocols xs from rfl, ih]
      rw [List.filter_cons_of_pos hx]
      rfl
    · rw [filter_orderedInsert_neg q x (by simpa using hx)]
      rw [show List.insertionSort stateLE xs = sortProtocols xs from rfl, ih]
      rw [List.filter_cons_of_neg (by simpa using hx)]

/-! ### Facts about decimal rendering -/

theorem natDec_ne_nil (n : Nat) : natDec n ≠ [] := by
  rw [natDec]
  split
  · simp
  · simp

theorem natDec_ne_dash (n : Nat) : natDec n ≠ ['-'] := by
  rw [natDec]
  split
  next h =>
    interval_cases n <;> decide
  next h =>
    intro heq
    have hlen := congrArg List.length heq
    simp at hlen
    exact natDec_ne_nil (n / 10) hlen

theorem intToDec_ne_dash (i : Int) : intToDec i ≠ "-" := by
  intro h
  have hd : (intToDec i).data = ['-'] := by rw [h]
  rw [intToDec] at hd
  split at hd
  · have hd' : '-' :: natDec (-i).toNat = ['-'] := hd
    have : natDec (-i).toNat = [] := by
      injection hd'
    exact natDec_ne_nil _ this
  · exact natDec_ne_dash i.toNat hd

theorem parseTableInt_ne_dash (i : Int) : parseTableInt i ≠ "-" := by
  rw [parseTableInt]
  split
  · decide
  · exact intToDec_ne_dash i

/-! ### Reading the comparator order off the sort key -/

theorem stateLE_BGP_of_BGP (a b : ProtocolState) (h : stateLE a b)
    (ha : a.BGP.isSome = true) : b.BGP.isSome = true := by
  cases hb : b.BGP.isSome
  · exfalso
    have h' : statusLess b a = false := h
    simp [statusLess, ha, hb] at h'
  · rfl

theorem stateLE_BGP_lex (a b : ProtocolState) (h : stateLE a b)
    (ha : a.BGP.isSome = true) (hb : b.BGP.isSome = true) :
    getPrefixPriority a.Name < getPrefixPriority b.Name ∨
      (getPrefixPriority a.Name = getPrefixPriority b.Name ∧
        (lowerStr a.Name).data ≤ (lowerStr b.Name).data) := by
  have h' : statusLess b a = false := h
  simp only [statusLess, ha, hb, Bool.not_true, Bool.false_and, Bool.and_false,
    Bool.false_eq_true, if_false] at h'
  by_cases hp : getPrefixPriority b.Name = getPrefixPriority a.Name
  · rw [if_neg (not_not_intro hp)] at h'
    exact Or.inr ⟨hp.symm, le_of_not_lt (by simpa using h')⟩
  · rw [if_pos hp] at h'
    have hle : getPrefixPriority a.Name ≤ getPrefixPriority b.Name :=
      le_of_not_lt (by simpa using h')
    exact Or.inl (lt_of_le_of_ne hle (fun e => hp e.symm))

/-! ### The first-match semantics of the priority loop -/

theorem prioAux_first_match (lower : String) (L : List String) :
    ∀ i, i < L.length → hasPfx lower (L.getD i "") = true →
      (∀ j, j < i → hasPfx lower (L.getD j "") = false) →
      prioAux lower L = i := by
  induction L with
  | nil => intro i hi; exact absurd hi (by simp)
  | cons p rest ih =>
    intro i hi hmatch hbefore
    cases i with
    | zero =>
      simp only [List.getD_cons_zero] at hmatch
      simp [prioAux, hmatch]
    | succ k =>
      have hp : hasPfx lower p = false := by
        have := hbefore 0 (Nat.succ_pos k)
        simpa using this
      have hrest : prioAux lower rest = k := by
        refine ih k (by simpa using hi) (by simpa using hmatch) ?_
        intro j hj
        have := hbefore (j + 1) (Nat.succ_lt_succ hj)
        simpa using this
      simp [prioAux, hp, hrest]

theorem prioAux_no_match (lower : String) (L : List String)
    (h : ∀ p ∈ L, hasPfx lower p = false) :
    prioAux lower L = L.length := by
  induction L with
  | nil => rfl
  | cons p rest ih =>
    have hp : hasPfx lower p = false := h p (List.mem_cons_self p rest)
    simp only [prioAux, hp, Bool.false_eq_true, if_false, List.length_cons]
    rw [ih (fun q hq => h q (List.mem_cons_of_mem p hq))]

theorem containsAny_iff (a b : List String) :
    containsAny a b = true ↔ ∃ t, t ∈ a ∧ t ∈ b := by
  simp only [containsAny, List.any_eq_true, beq_iff_eq]
  constructor
  · rintro ⟨i, hi, j, hj, he⟩
    exact ⟨i, hi, he ▸ hj⟩
  · rintro ⟨t, ht, htb⟩
    exact ⟨t, ht, t, htb, rfl⟩

/-! ### Concrete records used in scenario checks -/

/-- A non-BGP record with a given name (scenario input). -/
def mkPlain (n : String) : ProtocolState :=
  { Name := n, State := "", Since := "", Info := "",
    Routes := { Imported := 0, Exported := 0 }, BGP := none }

/-- A BGP record with a given name (scenario input). -/
def mkBGP (n : String) : ProtocolState :=
  { Name := n, State := "", Since := "", Info := "",
    Routes := { Imported := 0, Exported := 0 },
    BGP := some { NeighborAddress := "", NeighborAS := 0 } }

/-! ### The claims -/

/-- C1: in the sorted output, every record without a BGP sub-record
precedes every record with one, and the non-BGP records appear in
exactly their input order (stability). -/
theorem sort_nonBGP_first_and_stable (l : List ProtocolState) :
    ((sortProtocols l).Pairwise
      (fun a b => a.BGP.isSome = true → b.BGP.isSome = true))
    ∧ (sortProtocols l).filter (fun p => !p.BGP.isSome)
        = l.filter (fun p => !p.BGP.isSome) := by
  constructor
  · exact (List.sorted_insertionSort stateLE l).imp
      (fun h ha => stateLE_BGP_of_BGP _ _ h ha)
  · rw [filter_sortProtocols_comm]
    exact sortProtocols_nonBGP_id _ (fun p hp => by simpa using (List.mem_filter.1 hp).2)

/-- C2: the prefix-priority function returns the index of the first
prefix of the ordered list that the lowercased name starts with, and
7 (one past the end) when none matches. -/
theorem getPrefixPriority_first_match (name : String) :
    (∀ i, i < prefixOrder.length →
        hasPfx (lowerStr name) (prefixOrder.getD i "") = true →
        (∀ j, j < i → hasPfx (lowerStr name) (prefixOrder.getD j "") = false) →
        getPrefixPriority name = i)
    ∧ ((∀ p ∈ prefixOrder, hasPfx (lowerStr name) p = false) →
        getPrefixPriority name = 7)
    ∧ prefixOrder.length = 7 := by
  refine ⟨fun i hi hm hb => prioAux_first_match _ _ i hi hm hb, fun h => ?_, rfl⟩
  rw [getPrefixPriority, prioAux_no_match _ _ h]
  rfl

/-- C2 witness: "Transit1" matches "transit" at index 1; "zzz" matches
no prefix and gets priority 7. -/
theorem getPrefixPriority_first_match_witness :
    getPrefixPriority "Transit1" = 1 ∧ getPrefixPriority "zzz" = 7 :=
  ⟨(getPrefixPriority_first_match "Transit1").1 1 (by decide) (by decide) (by decide),
   (getPrefixPriority_first_match "zzz").2.1 (by decide)⟩

/-- C3: BGP records are ordered by ascending prefix priority with
case-insensitive name as tie-break, and the spec's scenario sorts as
`direct1, transit-a, rs-c, peer-b, unknown-x`. -/
theorem bgp_sort_order (l : List ProtocolState) :
    ((sortProtocols l).Pairwise
      (fun a b => a.BGP.isSome = true → b.BGP.isSome = true →
        getPrefixPriority a.Name < getPrefixPriority b.Name ∨
          (getPrefixPriority a.Name = getPrefixPriority b.Name ∧
            (lowerStr a.Name).data ≤ (lowerStr b.Name).data)))
    ∧ (sortProtocols [mkPlain "direct1", mkBGP "transit-a", mkBGP "peer-b",
        mkBGP "rs-c", mkBGP "unknown-x"]).map ProtocolState.Name
        = ["direct1", "transit-a", "rs-c", "peer-b", "unknown-x"] := by
  constructor
  · exact (List.sorted_insertionSort stateLE l).imp
      (fun h ha hb => stateLE_BGP_lex _ _ h ha hb)
  · decide

/-- C4 counterexample: "Peer1" and "peer1" are distinct names of equal
prefix priority, yet the case-insensitive tie-break makes the two BGP
records compare equal in both directions. -/
theorem bgp_tiebreak_counterexample :
    (mkBGP "Peer1").Name ≠ (mkBGP "peer1").Name
    ∧ (mkBGP "Peer1").BGP.isSome = true
    ∧ (mkBGP "peer1").BGP.isSome = true
    ∧ getPrefixPriority (mkBGP "Peer1").Name = getPrefixPriority (mkBGP "peer1").Name
    ∧ statusLess (mkBGP "Peer1") (mkBGP "peer1") = false
    ∧ statusLess (mkBGP "peer1") (mkBGP "Peer1") = false := by
  decide

/-- C4 amended: two BGP records of equal prefix priority compare equal
under the comparator exactly when their lowercased names coincide; names
that remain distinct after lowercasing never compare equal. -/
theorem bgp_tiebreak_total (a b : ProtocolState)
    (ha : a.BGP.isSome = true) (hb : b.BGP.isSome = true)
    (hp : getPrefixPriority a.Name = getPrefixPriority b.Name) :
    (statusLess a b = false ∧ statusLess b a = false)
      ↔ lowerStr a.Name = lowerStr b.Name := by
  simp only [statusLess, ha, hb, Bool.not_true, Bool.false_and, Bool.and_false,
    Bool.false_eq_true, if_false]
  rw [if_neg (not_not_intro hp), if_neg (not_not_intro hp.symm)]
  simp only [decide_eq_false_iff_not, not_lt]
  exact ⟨fun ⟨h1, h2⟩ => strData_inj (le_antisymm h2 h1), fun e =>
    ⟨(congrArg String.data e).ge, (congrArg String.data e).le⟩⟩

/-- C4 witness: two case-variant BGP names of equal priority do compare
equal, by the amended equivalence. -/
theorem bgp_tiebreak_total_witness :
    statusLess (mkBGP "Client7") (mkBGP "client7") = false
    ∧ statusLess (mkBGP "client7") (mkBGP "Client7") = false :=
  (bgp_tiebreak_total (mkBGP "Client7") (mkBGP "client7")
    (by decide) (by decide) (by decide)).2 (by decide)

/-- The flags used in the C5 counterexample: name resolution requested. -/
def flagsC5 : Flags :=
  { realProtocolNames := false, onlyBGP := false, showTags := false, tagFilter := [] }

/-- The environment of the C5 counterexample: `loadConfig` fails and the
name-mapping file is missing. -/
def envC5 : RunEnv :=
  { configErr := some "connection refused",
    birdOut := Except.ok "",
    nameMapData := Except.error "Reading protocol names: open /etc/bird/protocols.json: no such file",
    parse := fun _ => Except.ok [] }

/-- C5 counterexample: after a config-load failure the run still
consults the name-mapping file, and aborts when that file is missing —
it neither skips the file nor keeps running. -/
theorem config_failure_counterexample :
    (runStatus flagsC5 envC5).warnings = [configWarning "connection refused"]
    ∧ (runStatus flagsC5 envC5).readNameFile = true
    ∧ (runStatus flagsC5 envC5).outcome
        = RunOutcome.fatal
            "Reading protocol names: open /etc/bird/protocols.json: no such file" := by
  decide

/-- C5 amended: a config-load failure is logged as a warning and by
itself never aborts the run — the rest of the trace (whether the
name-mapping file is read, and the outcome) is exactly that of the same
run without the failure; name resolution is governed solely by the
`realProtocolNames` flag. -/
theorem config_failure_only_warns (flags : Flags) (env : RunEnv) (e : String) :
    runStatus flags { env with configErr := some e }
      = { runStatus flags { env with configErr := none } with
            warnings := [configWarning e] } := by
  obtain ⟨ce, bo, nm, pr⟩ := env
  simp only [runStatus]
  cases bo with
  | error e' => rfl
  | ok out =>
    cases hr : flags.realProtocolNames
    · simp only [hr, Bool.false_eq_true, if_false]
      cases nm with
      | error e' => rfl
      | ok m => cases pr out <;> rfl
    · simp only [hr, if_true]
      cases pr out <;> rfl

/-- C6: the status-coloring rules are applied first-match-wins in the
order success ("up"/"Established"), failure ("down" or containing
"Error"), in-progress ("start" or containing "Connect"), else unstyled. -/
theorem colorStatus_rules (s : String) :
    (s = "up" ∨ s = "Established" → colorStatus s = greenString s)
    ∧ (¬(s = "up" ∨ s = "Established") →
        (strContains s "Error" = true ∨ s = "down") → colorStatus s = redString s)
    ∧ (¬(s = "up" ∨ s = "Established") →
        ¬(strContains s "Error" = true ∨ s = "down") →
        (strContains s "Connect" = true ∨ s = "start") → colorStatus s = yellowString s)
    ∧ (¬(s = "up" ∨ s = "Established") →
        ¬(strContains s "Error" = true ∨ s = "down") →
        ¬(strContains s "Connect" = true ∨ s = "start") → colorStatus s = s) := by
  have e1 : ((s == "up" || s == "Established") = true) ↔ (s = "up" ∨ s = "Established") := by
    simp
  have e2 : ((strContains s "Error" || s == "down") = true)
      ↔ (strContains s "Error" = true ∨ s = "down") := by simp
  have e3 : ((strContains s "Connect" || s == "start") = true)
      ↔ (strContains s "Connect" = true ∨ s = "start") := by simp
  unfold colorStatus
  refine ⟨fun h => ?_, fun h1 h2 => ?_, fun h1 h2 h3 => ?_, fun h1 h2 h3 => ?_⟩
  · rw [if_pos (e1.2 h)]
  · rw [if_neg (fun c => h1 (e1.1 c)), if_pos (e2.2 h2)]
  · rw [if_neg (fun c => h1 (e1.1 c)), if_neg (fun c => h2 (e2.1 c)),
      if_pos (e3.2 h3)]
  · rw [if_neg (fun c => h1 (e1.1 c)), if_neg (fun c => h2 (e2.1 c)),
      if_neg (fun c => h3 (e3.1 c))]

/-- C6 witness: one concrete string for each of the four rules. -/
theorem colorStatus_rules_witness :
    colorStatus "Established" = greenString "Established"
    ∧ colorStatus "down" = redString "down"
    ∧ colorStatus "Connecting" = yellowString "Connecting"
    ∧ colorStatus "idle" = "idle" :=
  ⟨(colorStatus_rules "Established").1 (Or.inr rfl),
   (colorStatus_rules "down").2.1 (by decide) (Or.inr rfl),
   (colorStatus_rules "Connecting").2.2.1 (by decide) (by decide) (Or.inl (by decide)),
   (colorStatus_rules "idle").2.2.2 (by decide) (by decide) (by decide)⟩

/-- C7: with the BGP-only filter off, a record is retained exactly when
the filter tag set is empty or shares a tag with the record's resolved
tags. -/
theorem tag_filter_retention (flags : Flags) (protocols : NameMap)
    (states : List ProtocolState) (hbgp : flags.onlyBGP = false) :
    buildTable flags protocols states
      = (states.filter (fun p => decide (flags.tagFilter = [] ∨
          ∃ t, t ∈ flags.tagFilter ∧ t ∈ tagsOf protocols p))).map
          (rowOf flags protocols) := by
  rw [buildTable_eq_filter_map]
  rw [List.filter_congr ?_]
  intro p _
  rw [Bool.eq_iff_iff]
  simp only [keepRecord, hbgp, Bool.not_false, Bool.true_or, Bool.true_and,
    Bool.or_eq_true, List.isEmpty_iff, decide_eq_true_eq, containsAny_iff]

/-- C7 witness: the spec's example, with `filter = ["edge"]`: the record
tagged `["core","edge"]` is retained, the one tagged `["core"]` is not. -/
theorem tag_filter_retention_witness :
    buildTable
        { realProtocolNames := false, onlyBGP := false, showTags := false,
          tagFilter := ["edge"] }
        [("p1", { Name := "p1", Tags := ["core", "edge"] }),
         ("p2", { Name := "p2", Tags := ["core"] })]
        [mkBGP "p1", mkBGP "p2"]
      = ([mkBGP "p1", mkBGP "p2"].filter (fun p => decide ((["edge"] : List String) = [] ∨
          ∃ t, t ∈ (["edge"] : List String) ∧
            t ∈ tagsOf [("p1", { Name := "p1", Tags := ["core", "edge"] }),
              ("p2", { Name := "p2", Tags := ["core"] })] p))).map
          (rowOf
            { realProtocolNames := false, onlyBGP := false, showTags := false,
              tagFilter := ["edge"] }
            [("p1", { Name := "p1", Tags := ["core", "edge"] }),
             ("p2", { Name := "p2", Tags := ["core"] })]) :=
  tag_filter_retention
    { realProtocolNames := false, onlyBGP := false, showTags := false,
      tagFilter := ["edge"] }
    [("p1", { Name := "p1", Tags := ["core", "edge"] }),
     ("p2", { Name := "p2", Tags := ["core"] })]
    [mkBGP "p1", mkBGP "p2"] rfl

/-- C8: the In/Out cells of a row are `parseTableInt` of the route
counters; a counter of -1 renders as the empty string (so never as
"-1" or "0"), and any other value as its decimal representation. -/
theorem route_counter_rendering (flags : Flags) (protocols : NameMap)
    (p : ProtocolState) :
    ((rowOf flags protocols p).getD 4 "" = parseTableInt p.Routes.Imported)
    ∧ ((rowOf flags protocols p).getD 5 "" = parseTableInt p.Routes.Exported)
    ∧ (p.Routes.Imported = -1 →
        parseTableInt p.Routes.Imported = ""
        ∧ parseTableInt p.Routes.Imported ≠ "-1"
        ∧ parseTableInt p.Routes.Imported ≠ "0")
    ∧ (p.Routes.Imported ≠ -1 →
        parseTableInt p.Routes.Imported = intToDec p.Routes.Imported)
    ∧ (p.Routes.Exported = -1 →
        parseTableInt p.Routes.Exported = ""
        ∧ parseTableInt p.Routes.Exported ≠ "-1"
        ∧ parseTableInt p.Routes.Exported ≠ "0")
    ∧ (p.Routes.Exported ≠ -1 →
        parseTableInt p.Routes.Exported = intToDec p.Routes.Exported) := by
  refine ⟨?_, ?_, fun h => ?_, fun h => ?_, fun h => ?_, fun h => ?_⟩
  · cases hs : flags.showTags <;> cases hbgp : p.BGP <;> simp [rowOf, hs, hbgp]
  · cases hs : flags.showTags <;> cases hbgp : p.BGP <;> simp [rowOf, hs, hbgp]
  · rw [h]; exact ⟨rfl, by decide, by decide⟩
  · rw [parseTableInt, if_neg h]
  · rw [h]; exact ⟨rfl, by decide, by decide⟩
  · rw [parseTableInt, if_neg h]

/-- Default flags used by concrete witnesses. -/
def flagsPlain : Flags :=
  { realProtocolNames := false, onlyBGP := false, showTags := false, tagFilter := [] }

/-- A record with Imported = -1 and Exported = 12, for the C8 witness. -/
def static1 : ProtocolState :=
  { Name := "static1", State := "up", Since := "", Info := "",
    Routes := { Imported := -1, Exported := 12 }, BGP := none }

/-- C8 witness: a record with Imported = -1 and Exported = 12. -/
theorem route_counter_rendering_witness :
    (parseTableInt static1.Routes.Imported = ""
      ∧ parseTableInt static1.Routes.Imported ≠ "-1"
      ∧ parseTableInt static1.Routes.Imported ≠ "0")
    ∧ parseTableInt static1.Routes.Exported = intToDec static1.Routes.Exported :=
  ⟨(route_counter_rendering flagsPlain [] static1).2.2.1 rfl,
   (route_counter_rendering flagsPlain [] static1).2.2.2.2.2 (by decide)⟩

/-- C9: filtering (BGP-only and tag filter) commutes with the stable
sort: the rows built from the sorted input equal the rows of the
sort of the pre-filtered input. -/
theorem filter_sort_commute (flags : Flags) (protocols : NameMap)
    (states : List ProtocolState) :
    ((sortProtocols states).filter (keepRecord flags protocols)
        = sortProtocols (states.filter (keepRecord flags protocols)))
    ∧ buildTable flags protocols (sortProtocols states)
        = (sortProtocols (states.filter (keepRecord flags protocols))).map
            (rowOf flags protocols) := by
  refine ⟨filter_sortProtocols_comm _ _, ?_⟩
  rw [buildTable_eq_filter_map, filter_sortProtocols_comm]

/-- A BGP record whose neighbor address happens to be the literal
placeholder text. -/
def dashAddrRecord : ProtocolState :=
  { Name := "peer3", State := "up", Since := "", Info := "",
    Routes := { Imported := 0, Exported := 0 },
    BGP := some { NeighborAddress := "-", NeighborAS := 65000 } }

/-- C10 counterexample: a BGP record whose `NeighborAddress` is the
string "-" produces "-" in the Neighbor cell, so "-" is not exclusive
to records without a BGP sub-record. -/
theorem dash_cell_counterexample :
    dashAddrRecord.BGP.isSome = true
    ∧ (rowOf
        { realProtocolNames := false, onlyBGP := false, showTags := false, tagFilter := [] }
        [] dashAddrRecord).getD 2 "" = "-" := by
  decide

/-- C10 amended: a BGP record with NeighborAS = -1 gets an empty AS cell
(never "-1", never "-"); the AS cell of a BGP record is never "-"; both
placeholder cells equal "-" for every non-BGP record; the Neighbor cell
of a BGP record is its `NeighborAddress` verbatim (which may itself be
the text "-"). -/
theorem neighbor_cell_rendering (flags : Flags) (protocols : NameMap)
    (p : ProtocolState) :
    (∀ b, p.BGP = some b →
        (rowOf flags protocols p).getD 1 "" = parseTableInt b.NeighborAS
        ∧ (rowOf flags protocols p).getD 1 "" ≠ "-"
        ∧ (b.NeighborAS = -1 → (rowOf flags protocols p).getD 1 "" = "")
        ∧ (rowOf flags protocols p).getD 2 "" = b.NeighborAddress)
    ∧ (p.BGP = none →
        (rowOf flags protocols p).getD 1 "" = "-"
        ∧ (rowOf flags protocols p).getD 2 "" = "-") := by
  constructor
  · intro b hbgp
    have h1 : (rowOf flags protocols p).getD 1 "" = parseTableInt b.NeighborAS := by
      cases hs : flags.showTags <;> simp [rowOf, hs, hbgp]
    have h2 : (rowOf flags protocols p).getD 2 "" = b.NeighborAddress := by
      cases hs : flags.showTags <;> simp [rowOf, hs, hbgp]
    refine ⟨h1, ?_, fun hneg => ?_, h2⟩
    · rw [h1]; exact parseTableInt_ne_dash b.NeighborAS
    · rw [h1, hneg]; rfl
  · intro hbgp
    constructor <;> (cases hs : flags.showTags <;> simp [rowOf, hs, hbgp])

/-- A BGP record with unknown neighbor AS, for the C10 witness. -/
def peer9 : ProtocolState :=
  { Name := "peer9", State := "up", Since := "", Info := "",
    Routes := { Imported := 0, Exported := 0 },
    BGP := some { NeighborAddress := "192.0.2.1", NeighborAS := -1 } }

/-- C10 witness: a BGP record with NeighborAS = -1 and a non-BGP record,
at concrete inputs. -/
theorem neighbor_cell_rendering_witness :
    (rowOf flagsPlain [] peer9).getD 1 "" = ""
    ∧ (rowOf flagsPlain [] (mkPlain "static2")).getD 1 "" = "-" :=
  ⟨((neighbor_cell_rendering flagsPlain [] peer9).1
      { NeighborAddress := "192.0.2.1", NeighborAS := -1 } rfl).2.2.1 rfl,
   ((neighbor_cell_rendering flagsPlain [] (mkPlain "static2")).2 rfl).1⟩
